import Mathlib

/-!
Verification development for the gcp-kms-emulator storage engine
(`internal/storage/storage.go`) and the error-code translation of its gRPC
server layer (`internal/server/server.go`).

Go maps are embedded as association lists (`List (String × β)`); Go map
iteration and "first hit wins" searches become list recursion.  Randomness
(`io.ReadFull(rand.Reader, …)`) is embedded by passing the random bytes
(symmetric keys, nonces) as explicit arguments.  `crypto/aes` together with
`crypto/cipher`'s GCM is embedded as an ideal authenticated-encryption scheme:
sealing appends an ideal authenticator tag determined injectively by
(key, nonce, plaintext), and opening succeeds exactly on a well-formed seal
under the same key and nonce.  Go `int64` counters are embedded as `Nat`
(they are only ever incremented, starting from 2).  Wall-clock times
(`time.Now()`) are passed as explicit `Nat` arguments.
-/

namespace KmsModel

/-! ## Association lists embedding Go maps -/

/-- Go map read `m[k]` (with ok-flag): first binding of `k`, if any. -/
def lookupA {β : Type} : List (String × β) → String → Option β
  | [], _ => none
  | (k, v) :: rest, key => if k = key then some v else lookupA rest key

/-- Go map write `m[k] = v`: replace the binding of `k`, or append a new one. -/
def insertA {β : Type} : List (String × β) → String → β → List (String × β)
  | [], key, v => [(key, v)]
  | (k, w) :: rest, key, v =>
    if k = key then (key, v) :: rest else (k, w) :: insertA rest key v

theorem lookupA_insertA_self {β : Type} (m : List (String × β)) (k : String) (v : β) :
    lookupA (insertA m k v) k = some v := by
  induction m with
  | nil => simp [insertA, lookupA]
  | cons p rest ih =>
    by_cases h : p.1 = k
    · simp [insertA, lookupA, h]
    · simp [insertA, lookupA, h, ih]

theorem lookupA_insertA_ne {β : Type} (m : List (String × β)) (k k' : String) (v : β)
    (h : k' ≠ k) : lookupA (insertA m k v) k' = lookupA m k' := by
  have h' : k ≠ k' := Ne.symm h
  induction m with
  | nil => simp [insertA, lookupA, h']
  | cons p rest ih =>
    by_cases hp : p.1 = k
    · simp [insertA, lookupA, hp, h']
    · simp [insertA, lookupA, hp, ih]

theorem lookupA_mem {β : Type} {m : List (String × β)} {k : String} {v : β}
    (h : lookupA m k = some v) : (k, v) ∈ m := by
  induction m with
  | nil => simp [lookupA] at h
  | cons p rest ih =>
    rw [lookupA] at h
    split at h
    · rename_i heq
      cases p
      simp_all
    · exact List.mem_cons_of_mem _ (ih h)

theorem mem_insertA {β : Type} {m : List (String × β)} {k : String} {v : β} {p : String × β}
    (h : p ∈ insertA m k v) : p = (k, v) ∨ p ∈ m := by
  induction m with
  | nil => simp [insertA] at h; simp [h]
  | cons q rest ih =>
    rw [insertA] at h
    split at h
    · rcases List.mem_cons.mp h with h1 | h1
      · exact Or.inl h1
      · exact Or.inr (List.mem_cons_of_mem _ h1)
    · rcases List.mem_cons.mp h with h1 | h1
      · exact Or.inr (h1 ▸ List.mem_cons_self _ _)
      · rcases ih h1 with h2 | h2
        · exact Or.inl h2
        · exact Or.inr (List.mem_cons_of_mem _ h2)

theorem insertA_keys_of_lookup {β : Type} {m : List (String × β)} {k : String} {w : β}
    (h : lookupA m k = some w) (v : β) :
    (insertA m k v).map Prod.fst = m.map Prod.fst := by
  induction m with
  | nil => simp [lookupA] at h
  | cons p rest ih =>
    rw [lookupA] at h
    by_cases hp : p.1 = k
    · simp [insertA, hp]
    · simp only [hp, if_false] at h
      simp [insertA, hp, ih h]

/-! ## Decimal formatting of version ids

`fmt.Sprintf("%d", n)` on the (nonnegative) version counter is embedded by an
executable decimal formatter.  The auxiliary recursion carries explicit fuel
(always at least the number being printed) so that it is structural and
evaluates by `rfl`/`decide` on concrete inputs. -/

/-- One decimal digit as a character, `0 ↦ '0'`, …, `9 ↦ '9'`. -/
def decDigitChar (d : Nat) : Char := Char.ofNat (48 + d)

/-- Little-endian decimal digit values of `n`; `fuel ≥ n` suffices. -/
def natDigitsAux : Nat → Nat → List Nat
  | _, 0 => []
  | 0, _ + 1 => []
  | fuel + 1, n + 1 => ((n + 1) % 10) :: natDigitsAux fuel ((n + 1) / 10)

/-- Little-endian decimal digit values of `n` (empty for `0`). -/
def natDigitsLE (n : Nat) : List Nat := natDigitsAux n n

/-- Numeric value of a little-endian digit list. -/
def ofDigitsLE : List Nat → Nat
  | [] => 0
  | d :: ds => d + 10 * ofDigitsLE ds

theorem ofDigitsLE_natDigitsAux (fuel : Nat) :
    ∀ n : Nat, n ≤ fuel → ofDigitsLE (natDigitsAux fuel n) = n := by
  induction fuel with
  | zero =>
    intro n hn
    interval_cases n
    simp [natDigitsAux, ofDigitsLE]
  | succ f ih =>
    intro n hn
    cases n with
    | zero => simp [natDigitsAux, ofDigitsLE]
    | succ m =>
      have hdiv : (m + 1) / 10 ≤ f := by
        have h1 : (m + 1) / 10 < m + 1 := Nat.div_lt_self (Nat.succ_pos m) (by decide)
        omega
      rw [natDigitsAux, ofDigitsLE, ih _ hdiv]
      omega

theorem ofDigitsLE_natDigitsLE (n : Nat) : ofDigitsLE (natDigitsLE n) = n :=
  ofDigitsLE_natDigitsAux n n (Nat.le_refl n)

theorem natDigitsLE_injective {m n : Nat} (h : natDigitsLE m = natDigitsLE n) : m = n := by
  have := congrArg ofDigitsLE h
  rwa [ofDigitsLE_natDigitsLE, ofDigitsLE_natDigitsLE] at this

theorem natDigitsAux_lt (fuel : Nat) :
    ∀ n : Nat, ∀ d ∈ natDigitsAux fuel n, d < 10 := by
  induction fuel with
  | zero =>
    intro n d hd
    cases n <;> simp [natDigitsAux] at hd
  | succ f ih =>
    intro n d hd
    cases n with
    | zero => simp [natDigitsAux] at hd
    | succ m =>
      rw [natDigitsAux] at hd
      rcases List.mem_cons.mp hd with h1 | h1
      · subst h1; exact Nat.mod_lt _ (by decide)
      · exact ih _ _ h1

theorem decDigitChar_inj : ∀ d < 10, ∀ e < 10, decDigitChar d = decDigitChar e → d = e := by
  decide

theorem map_decDigitChar_inj :
    ∀ l1 l2 : List Nat, (∀ d ∈ l1, d < 10) → (∀ d ∈ l2, d < 10) →
      l1.map decDigitChar = l2.map decDigitChar → l1 = l2 := by
  intro l1
  induction l1 with
  | nil =>
    intro l2 _ _ h
    cases l2
    · rfl
    · simp at h
  | cons a l ih =>
    intro l2 h1 h2 h
    cases l2 with
    | nil => simp at h
    | cons b l' =>
      simp only [List.map_cons, List.cons.injEq] at h
      have ha : a < 10 := h1 a (List.mem_cons_self _ _)
      have hb : b < 10 := h2 b (List.mem_cons_self _ _)
      have hab : a = b := decDigitChar_inj a ha b hb h.1
      have hl : l = l' :=
        ih l' (fun d hd => h1 d (List.mem_cons_of_mem _ hd))
          (fun d hd => h2 d (List.mem_cons_of_mem _ hd)) h.2
      rw [hab, hl]

/-- Embeds Go's `fmt.Sprintf("%d", n)` for a nonnegative counter. -/
def goNatString (n : Nat) : String :=
  if n = 0 then "0" else String.mk ((natDigitsLE n).reverse.map decDigitChar)

theorem goNatString_inj_pos {m n : Nat} (hm : 1 ≤ m) (hn : 1 ≤ n)
    (h : goNatString m = goNatString n) : m = n := by
  rw [goNatString, goNatString, if_neg (by omega), if_neg (by omega)] at h
  have hdata : (natDigitsLE m).reverse.map decDigitChar
      = (natDigitsLE n).reverse.map decDigitChar := by
    exact congrArg String.data h
  have hrev : (natDigitsLE m).reverse = (natDigitsLE n).reverse :=
    map_decDigitChar_inj _ _
      (fun d hd => natDigitsAux_lt m m d (List.mem_reverse.mp hd))
      (fun d hd => natDigitsAux_lt n n d (List.mem_reverse.mp hd)) hdata
  have hdig : natDigitsLE m = natDigitsLE n := by
    have := congrArg List.reverse hrev
    simpa using this
  exact natDigitsLE_injective hdig

/-! ## Cryptographic engine

`aes.NewCipher` is embedded by its key-size check (it fails unless the key has
16, 24 or 32 bytes; the block itself is identified with the key).  AES-GCM
(`cipher.NewGCM`, `Seal`, `Open`) is embedded as an ideal authenticated
encryption scheme: `Seal` appends an ideal authenticator tag that determines
(key, nonce, plaintext) injectively, and `Open` succeeds exactly on such a
seal under the same key and nonce.  Bytes are embedded as `Nat`. -/

/-- `gcm.NonceSize()` for the standard GCM construction: 12 bytes. -/
def gcmNonceSize : Nat := 12

/-- Ideal authenticator tag over (key, nonce, plaintext). -/
def gcmTag (key nonce pt : List Nat) : Nat := Encodable.encode (key, nonce, pt)

theorem gcmTag_inj {key key' nonce nonce' pt pt' : List Nat}
    (h : gcmTag key nonce pt = gcmTag key' nonce' pt') :
    key = key' ∧ nonce = nonce' ∧ pt = pt' := by
  have := Encodable.encode_injective h
  injection this with h1 h2
  injection h2 with h2 h3
  exact ⟨h1, h2, h3⟩

/-- `gcm.Seal(nil, nonce, pt, nil)`: ciphertext body followed by the tag. -/
def gcmSeal (key nonce pt : List Nat) : List Nat := pt ++ [gcmTag key nonce pt]

/-- Split a nonempty list into its initial segment and its last element. -/
def splitLast : List Nat → Option (List Nat × Nat)
  | [] => none
  | a :: rest =>
    match splitLast rest with
    | some (body, tag) => some (a :: body, tag)
    | none => some ([], a)

theorem splitLast_append (body : List Nat) (tag : Nat) :
    splitLast (body ++ [tag]) = some (body, tag) := by
  induction body with
  | nil => rfl
  | cons a l ih => simp [splitLast, ih]

/-- `gcm.Open(nil, nonce, ct, nil)`: check the ideal tag, recover the body. -/
def gcmOpen (key nonce ct : List Nat) : Option (List Nat) :=
  match splitLast ct with
  | none => none
  | some (body, tag) => if tag = gcmTag key nonce body then some body else none

theorem gcmOpen_gcmSeal (key nonce pt : List Nat) :
    gcmOpen key nonce (gcmSeal key nonce pt) = some pt := by
  rw [gcmSeal]
  simp only [gcmOpen, splitLast_append]
  simp

theorem gcmOpen_gcmSeal_other {key key' nonce nonce' pt : List Nat} {res : List Nat}
    (h : gcmOpen key' nonce' (gcmSeal key nonce pt) = some res) :
    key' = key ∧ nonce' = nonce ∧ res = pt := by
  rw [gcmSeal] at h
  simp only [gcmOpen, splitLast_append] at h
  split at h
  · rename_i htag
    rcases gcmTag_inj htag.symm with ⟨h1, h2, _⟩
    cases h
    exact ⟨h1, h2, rfl⟩
  · cases h

/-- `aes.NewCipher(key)`: succeeds exactly on AES-128/192/256 key sizes. -/
def aesNewCipher (key : List Nat) : Option (List Nat) :=
  if key.length = 16 ∨ key.length = 24 ∨ key.length = 32 then some key else none

/-! ## Data model (`storage.go` structs)

`CreateTime` fields (`time.Time`) are embedded as `Nat` timestamps; enum
fields of the proto (`CryptoKey_CryptoKeyPurpose`,
`CryptoKeyVersion_CryptoKeyVersionAlgorithm`) are embedded as their `Nat`
wire values; the version state enum is embedded as a dedicated inductive. -/

/-- `kmspb.CryptoKeyVersion_CryptoKeyVersionState`. -/
inductive VersionState where
  | unspecified
  | pendingGeneration
  | enabled
  | disabled
  | destroyed
  | destroyScheduled
deriving DecidableEq

/-- `kmspb.CryptoKeyVersion_CRYPTO_KEY_VERSION_ALGORITHM_UNSPECIFIED`. -/
def algorithmUnspecified : Nat := 0

/-- `kmspb.CryptoKeyVersion_GOOGLE_SYMMETRIC_ENCRYPTION`. -/
def googleSymmetricEncryption : Nat := 1

/-- The `Algorithm` field of `kmspb.CryptoKeyVersionTemplate` (the only field
the storage code reads). -/
structure CryptoKeyVersionTemplate where
  algorithm : Nat
deriving DecidableEq

/-- `storage.StoredCryptoKeyVersion`. -/
structure StoredCryptoKeyVersion where
  name : String
  state : VersionState
  createTime : Nat
  algorithm : Nat
  symmetricKey : List Nat
deriving DecidableEq

/-- `storage.StoredCryptoKey`.  `NextVersionID` is a Go `int64` that is only
ever initialized to 2 and incremented, embedded as `Nat`. -/
structure StoredCryptoKey where
  name : String
  createTime : Nat
  purpose : Nat
  primaryVersion : String
  versions : List (String × StoredCryptoKeyVersion)
  nextVersionID : Nat
  versionTemplate : Option CryptoKeyVersionTemplate
  labels : List (String × String)
deriving DecidableEq

/-- `storage.StoredKeyRing`. -/
structure StoredKeyRing where
  name : String
  createTime : Nat
  cryptoKeys : List (String × StoredCryptoKey)
deriving DecidableEq

/-- `storage.Storage` (the `keyrings` map; the RWMutex is the concurrency
discipline, not data). -/
structure Storage where
  keyrings : List (String × StoredKeyRing)
deriving DecidableEq

/-- Returned `kmspb.KeyRing` (fields the code populates). -/
structure KeyRingProto where
  name : String
  createTime : Nat
deriving DecidableEq

/-- Returned `kmspb.CryptoKeyVersion` (fields the code populates). -/
structure CryptoKeyVersionProto where
  name : String
  state : VersionState
  createTime : Nat
  algorithm : Nat
deriving DecidableEq

/-- Returned `kmspb.CryptoKey` (fields the code populates). -/
structure CryptoKeyProto where
  name : String
  createTime : Nat
  purpose : Nat
  primary : CryptoKeyVersionProto
  versionTemplate : Option CryptoKeyVersionTemplate
  labels : List (String × String)
deriving DecidableEq

/-- The `kmspb.CryptoKeyVersion` literal the code builds from a stored version. -/
def versionProtoOf (v : StoredCryptoKeyVersion) : CryptoKeyVersionProto :=
  { name := v.name, state := v.state, createTime := v.createTime, algorithm := v.algorithm }

/-- Storage error values.  The Go code produces `fmt.Errorf` messages; each
constructor corresponds to one fixed message shape (noted in comments), which
is what the server layer dispatches on via `strings.Contains`. -/
inductive KmsErr where
  | keyringAlreadyExists (name : String)      -- "keyring already exists: %s"
  | keyringNotFound (name : String)           -- "keyring not found: %s"
  | cryptoKeyAlreadyExists (name : String)    -- "crypto key already exists: %s"
  | cryptoKeyNotFound (name : String)         -- "crypto key not found: %s"
  | primaryVersionNotFound                    -- "primary version not found"
  | primaryVersionNotEnabled                  -- "primary version is not enabled"
  | failedToCreateCipher                      -- "failed to create cipher: %w"
  | ciphertextTooShort                        -- "ciphertext too short"
  | authenticationFailed                      -- gcm.Open authentication error
  | decryptAllVersionsFailed                  -- "failed to decrypt with any key version"
  | versionNotFound (name : String)           -- "crypto key version not found: %s"
  | versionNotEnabled (name : String)         -- "crypto key version is not enabled: %s"
  | versionAlreadyDestroyedOrScheduled (name : String)
      -- "crypto key version already destroyed or scheduled: %s"
deriving DecidableEq

/-- The `fmt.Errorf` message of each storage error (`err.Error()` as the
server layer sees it).  Name-carrying messages embed the client-chosen
resource name unvalidated.  (The cipher message omits the wrapped
`crypto/aes` key-size number; no dispatched substring depends on it.) -/
def errMessage : KmsErr → String
  | .keyringAlreadyExists n => "keyring already exists: " ++ n
  | .keyringNotFound n => "keyring not found: " ++ n
  | .cryptoKeyAlreadyExists n => "crypto key already exists: " ++ n
  | .cryptoKeyNotFound n => "crypto key not found: " ++ n
  | .primaryVersionNotFound => "primary version not found"
  | .primaryVersionNotEnabled => "primary version is not enabled"
  | .failedToCreateCipher => "failed to create cipher: crypto/aes: invalid key size"
  | .ciphertextTooShort => "ciphertext too short"
  | .authenticationFailed => "cipher: message authentication failed"
  | .decryptAllVersionsFailed => "failed to decrypt with any key version"
  | .versionNotFound n => "crypto key version not found: " ++ n
  | .versionNotEnabled n => "crypto key version is not enabled: " ++ n
  | .versionAlreadyDestroyedOrScheduled n =>
      "crypto key version already destroyed or scheduled: " ++ n

/-! ## Substring containment (`strings.Contains`) -/

/-- Does the character list start with the needle (second argument)? -/
def startsWithChars : List Char → List Char → Bool
  | _, [] => true
  | [], _ :: _ => false
  | a :: l, b :: m => (a == b) && startsWithChars l m

/-- Does the character list contain the needle (second argument) as a
contiguous run? -/
def containsChars : List Char → List Char → Bool
  | [], needle => startsWithChars [] needle
  | a :: rest, needle => startsWithChars (a :: rest) needle || containsChars rest needle

/-- Embeds Go's `strings.Contains(s, sub)`. -/
def strContains (s sub : String) : Bool := containsChars s.data sub.data

theorem startsWithChars_nil_needle (l : List Char) : startsWithChars l [] = true := by
  cases l <;> rfl

theorem startsWithChars_append {l needle : List Char} (ext : List Char)
    (h : startsWithChars l needle = true) : startsWithChars (l ++ ext) needle = true := by
  induction needle generalizing l with
  | nil => exact startsWithChars_nil_needle _
  | cons b m ih =>
    cases l with
    | nil => simp [startsWithChars] at h
    | cons a l' =>
      rw [List.cons_append]
      simp only [startsWithChars, Bool.and_eq_true] at h ⊢
      exact ⟨h.1, ih h.2⟩

theorem containsChars_nil (l : List Char) : containsChars l [] = true := by
  cases l <;> simp [containsChars, startsWithChars]

theorem containsChars_append {l needle : List Char} (ext : List Char)
    (h : containsChars l needle = true) : containsChars (l ++ ext) needle = true := by
  induction l with
  | nil =>
    cases needle with
    | nil => simpa using containsChars_nil ext
    | cons b m => simp [containsChars, startsWithChars] at h
  | cons a rest ih =>
    rw [List.cons_append, containsChars]
    rw [containsChars] at h
    cases hs : startsWithChars (a :: rest) needle with
    | true =>
      have := startsWithChars_append ext hs
      rw [List.cons_append] at this
      simp [this]
    | false =>
      rw [hs] at h
      simp only [Bool.false_or] at h
      simp [ih h]

theorem strContains_append {a : String} (b : String) {pat : String}
    (h : strContains a pat = true) : strContains (a ++ b) pat = true := by
  cases a with
  | mk da =>
    cases b with
    | mk db =>
      rw [strContains] at h
      show containsChars (da ++ db) pat.data = true
      exact containsChars_append db h

/-! ## Lookup and write-back helpers

The Go code finds a `*StoredCryptoKey` (or `*StoredCryptoKeyVersion`) by
ranging over the keyring map (and the crypto-key maps) and then mutates it
through the pointer.  The embedding separates this into a find (first hit in
list order) and a write-back into the first containing map. -/

/-- `for _, keyring := range s.keyrings { if ck, exists := keyring.CryptoKeys[keyName] … }`. -/
def findCryptoKeyInRings : List (String × StoredKeyRing) → String → Option StoredCryptoKey
  | [], _ => none
  | (_, kr) :: rest, keyName =>
    match lookupA kr.cryptoKeys keyName with
    | some ck => some ck
    | none => findCryptoKeyInRings rest keyName

/-- Write-back of a crypto key mutated through its pointer: update it in the
first keyring whose map contains it. -/
def setCryptoKeyInRings :
    List (String × StoredKeyRing) → String → StoredCryptoKey → List (String × StoredKeyRing)
  | [], _, _ => []
  | (rn, kr) :: rest, keyName, ck =>
    match lookupA kr.cryptoKeys keyName with
    | some _ => (rn, { kr with cryptoKeys := insertA kr.cryptoKeys keyName ck }) :: rest
    | none => (rn, kr) :: setCryptoKeyInRings rest keyName ck

/-- Nested range over one keyring's crypto keys looking for a version. -/
def findVersionInKeys :
    List (String × StoredCryptoKey) → String → Option StoredCryptoKeyVersion
  | [], _ => none
  | (_, ck) :: rest, versionName =>
    match lookupA ck.versions versionName with
    | some v => some v
    | none => findVersionInKeys rest versionName

/-- `for _, keyring := range s.keyrings { for _, cryptoKey := range keyring.CryptoKeys { … } }`. -/
def findVersionInRings :
    List (String × StoredKeyRing) → String → Option StoredCryptoKeyVersion
  | [], _ => none
  | (_, kr) :: rest, versionName =>
    match findVersionInKeys kr.cryptoKeys versionName with
    | some v => some v
    | none => findVersionInRings rest versionName

/-- Write-back of a version mutated through its pointer, within one keyring. -/
def setVersionInKeys :
    List (String × StoredCryptoKey) → String → StoredCryptoKeyVersion
      → List (String × StoredCryptoKey)
  | [], _, _ => []
  | (kn, ck) :: rest, versionName, v =>
    match lookupA ck.versions versionName with
    | some _ => (kn, { ck with versions := insertA ck.versions versionName v }) :: rest
    | none => (kn, ck) :: setVersionInKeys rest versionName v

/-- Write-back of a version mutated through its pointer, across all keyrings. -/
def setVersionInRings :
    List (String × StoredKeyRing) → String → StoredCryptoKeyVersion
      → List (String × StoredKeyRing)
  | [], _, _ => []
  | (rn, kr) :: rest, versionName, v =>
    match findVersionInKeys kr.cryptoKeys versionName with
    | some _ => (rn, { kr with cryptoKeys := setVersionInKeys kr.cryptoKeys versionName v }) :: rest
    | none => (rn, kr) :: setVersionInRings rest versionName v

/-- `Storage.findCryptoKey` is the common search prologue of `Encrypt`,
`Decrypt`, `CreateCryptoKeyVersion`, `UpdateCryptoKeyPrimaryVersion`, …. -/
def Storage.findCryptoKey (s : Storage) (keyName : String) : Option StoredCryptoKey :=
  findCryptoKeyInRings s.keyrings keyName

/-! ## Storage operations

Each operation is embedded as a pure function from the pre-state (plus any
bytes the Go code draws from `rand.Reader` and the `time.Now()` timestamp) to
the Go function's return value paired with the post-state.  Error returns in
the Go code all happen before any mutation of the shared maps; the embedding
returns, at every return point, exactly the state the Go code has built by
that point. -/

/-- `Storage.CreateKeyRing`. -/
def Storage.createKeyRing (s : Storage) (name : String) (now : Nat) :
    (Except KmsErr KeyRingProto) × Storage :=
  match lookupA s.keyrings name with
  | some _ => (.error (.keyringAlreadyExists name), s)
  | none =>
    let keyring : StoredKeyRing := { name := name, createTime := now, cryptoKeys := [] }
    (.ok { name := name, createTime := now }, ⟨insertA s.keyrings name keyring⟩)

/-- Algorithm selection shared by `CreateCryptoKey` and
`CreateCryptoKeyVersion`: `GOOGLE_SYMMETRIC_ENCRYPTION` unless the template
carries a specified algorithm. -/
def templateAlgorithm : Option CryptoKeyVersionTemplate → Nat
  | some t => if t.algorithm ≠ algorithmUnspecified then t.algorithm else googleSymmetricEncryption
  | none => googleSymmetricEncryption

/-- `fmt.Sprintf("%s/cryptoKeyVersions/%d", keyName, id)`. -/
def versionNameFor (keyName : String) (id : Nat) : String :=
  keyName ++ "/cryptoKeyVersions/" ++ goNatString id

/-- `Storage.CreateCryptoKey`.  `symmetricKey` stands for the 32 bytes read
from `rand.Reader` (key generation itself cannot fail in the embedding). -/
def Storage.createCryptoKey (s : Storage) (keyringName keyID : String) (purpose : Nat)
    (versionTemplate : Option CryptoKeyVersionTemplate) (labels : List (String × String))
    (symmetricKey : List Nat) (now : Nat) : (Except KmsErr CryptoKeyProto) × Storage :=
  match lookupA s.keyrings keyringName with
  | none => (.error (.keyringNotFound keyringName), s)
  | some keyring =>
    let keyName := keyringName ++ "/cryptoKeys/" ++ keyID
    match lookupA keyring.cryptoKeys keyName with
    | some _ => (.error (.cryptoKeyAlreadyExists keyName), s)
    | none =>
      let versionName := keyName ++ "/cryptoKeyVersions/1"
      let algorithm := templateAlgorithm versionTemplate
      let version : StoredCryptoKeyVersion :=
        { name := versionName, state := .enabled, createTime := now,
          algorithm := algorithm, symmetricKey := symmetricKey }
      let cryptoKey : StoredCryptoKey :=
        { name := keyName, createTime := now, purpose := purpose,
          primaryVersion := versionName, versions := [(versionName, version)],
          nextVersionID := 2, versionTemplate := versionTemplate, labels := labels }
      let keyring' := { keyring with cryptoKeys := insertA keyring.cryptoKeys keyName cryptoKey }
      (.ok { name := keyName, createTime := now, purpose := purpose,
             primary := { name := versionName, state := .enabled, createTime := now,
                          algorithm := algorithm },
             versionTemplate := versionTemplate, labels := labels },
       ⟨insertA s.keyrings keyringName keyring'⟩)

/-- `Storage.Encrypt`.  `nonce` stands for the `gcm.NonceSize()` bytes read
from `rand.Reader`; `cipher.NewGCM` on an AES block never fails and is folded
into the seal. -/
def Storage.encrypt (s : Storage) (keyName : String) (plaintext nonce : List Nat) :
    Except KmsErr (List Nat) :=
  match s.findCryptoKey keyName with
  | none => .error (.cryptoKeyNotFound keyName)
  | some cryptoKey =>
    match lookupA cryptoKey.versions cryptoKey.primaryVersion with
    | none => .error .primaryVersionNotFound
    | some primaryVersion =>
      if primaryVersion.state ≠ .enabled then .error .primaryVersionNotEnabled
      else
        match aesNewCipher primaryVersion.symmetricKey with
        | none => .error .failedToCreateCipher
        | some key => .ok (nonce ++ gcmSeal key nonce plaintext)

/-- `Storage.decryptWithVersion`. -/
def decryptWithVersion (version : StoredCryptoKeyVersion) (ciphertext : List Nat) :
    Except KmsErr (List Nat) :=
  match aesNewCipher version.symmetricKey with
  | none => .error .failedToCreateCipher
  | some key =>
    if ciphertext.length < gcmNonceSize then .error .ciphertextTooShort
    else
      match gcmOpen key (ciphertext.take gcmNonceSize) (ciphertext.drop gcmNonceSize) with
      | some pt => .ok pt
      | none => .error .authenticationFailed

/-- The version loop of `Storage.Decrypt`: skip versions not in state
ENABLED, return the first successful authenticated decryption. -/
def decryptLoop : List (String × StoredCryptoKeyVersion) → List Nat → Except KmsErr (List Nat)
  | [], _ => .error .decryptAllVersionsFailed
  | (_, version) :: rest, ciphertext =>
    if version.state ≠ .enabled then decryptLoop rest ciphertext
    else
      match decryptWithVersion version ciphertext with
      | .ok pt => .ok pt
      | .error _ => decryptLoop rest ciphertext

/-- `Storage.Decrypt`. -/
def Storage.decrypt (s : Storage) (keyName : String) (ciphertext : List Nat) :
    Except KmsErr (List Nat) :=
  match s.findCryptoKey keyName with
  | none => .error (.cryptoKeyNotFound keyName)
  | some cryptoKey => decryptLoop cryptoKey.versions ciphertext

/-- `Storage.CreateCryptoKeyVersion`. -/
def Storage.createCryptoKeyVersion (s : Storage) (keyName : String)
    (symmetricKey : List Nat) (now : Nat) : (Except KmsErr CryptoKeyVersionProto) × Storage :=
  match s.findCryptoKey keyName with
  | none => (.error (.cryptoKeyNotFound keyName), s)
  | some cryptoKey =>
    let versionID := cryptoKey.nextVersionID
    let versionName := versionNameFor keyName versionID
    let algorithm := templateAlgorithm cryptoKey.versionTemplate
    let version : StoredCryptoKeyVersion :=
      { name := versionName, state := .enabled, createTime := now,
        algorithm := algorithm, symmetricKey := symmetricKey }
    let cryptoKey' :=
      { cryptoKey with versions := insertA cryptoKey.versions versionName version,
                       nextVersionID := versionID + 1 }
    (.ok (versionProtoOf version), ⟨setCryptoKeyInRings s.keyrings keyName cryptoKey'⟩)

/-- `Storage.UpdateCryptoKeyPrimaryVersion`.  (After repointing, the Go code
re-reads `cryptoKey.Versions[cryptoKey.PrimaryVersion]`, which is the version
just checked.) -/
def Storage.updateCryptoKeyPrimaryVersion (s : Storage) (keyName versionName : String) :
    (Except KmsErr CryptoKeyProto) × Storage :=
  match s.findCryptoKey keyName with
  | none => (.error (.cryptoKeyNotFound keyName), s)
  | some cryptoKey =>
    match lookupA cryptoKey.versions versionName with
    | none => (.error (.versionNotFound versionName), s)
    | some version =>
      if version.state ≠ .enabled then (.error (.versionNotEnabled versionName), s)
      else
        let cryptoKey' := { cryptoKey with primaryVersion := versionName }
        (.ok { name := cryptoKey'.name, createTime := cryptoKey'.createTime,
               purpose := cryptoKey'.purpose, primary := versionProtoOf version,
               versionTemplate := cryptoKey'.versionTemplate, labels := cryptoKey'.labels },
         ⟨setCryptoKeyInRings s.keyrings keyName cryptoKey'⟩)

/-- `Storage.UpdateCryptoKeyVersion`: sets the state unconditionally. -/
def Storage.updateCryptoKeyVersion (s : Storage) (versionName : String) (state : VersionState) :
    (Except KmsErr CryptoKeyVersionProto) × Storage :=
  match findVersionInRings s.keyrings versionName with
  | none => (.error (.versionNotFound versionName), s)
  | some version =>
    let version' := { version with state := state }
    (.ok (versionProtoOf version'), ⟨setVersionInRings s.keyrings versionName version'⟩)

/-- `Storage.DestroyCryptoKeyVersion`. -/
def Storage.destroyCryptoKeyVersion (s : Storage) (versionName : String) :
    (Except KmsErr CryptoKeyVersionProto) × Storage :=
  match findVersionInRings s.keyrings versionName with
  | none => (.error (.versionNotFound versionName), s)
  | some version =>
    if version.state = .destroyed ∨ version.state = .destroyScheduled then
      (.error (.versionAlreadyDestroyedOrScheduled versionName), s)
    else
      let version' := { version with state := .destroyScheduled }
      (.ok (versionProtoOf version'), ⟨setVersionInRings s.keyrings versionName version'⟩)

/-- Outcome of a mutating operation as the Go code can end it: a returned
value, a returned error, or a nil-pointer dereference (a Go panic — the call
returns nothing at all). -/
inductive OpOutcome (α : Type) where
  | ok (a : α)
  | error (e : KmsErr)
  | crash

def OpOutcome.map {α β : Type} (f : α → β) : OpOutcome α → OpOutcome β
  | .ok a => .ok (f a)
  | .error e => .error e
  | .crash => .crash

def outcomeOfExcept {α : Type} : Except KmsErr α → OpOutcome α
  | .ok a => .ok a
  | .error e => .error e

/-- `Storage.UpdateCryptoKey`: replaces the labels when the argument map is
non-nil, then builds the returned proto from
`cryptoKey.Versions[cryptoKey.PrimaryVersion]` without a nil check — a key
whose primary name is not in its version map makes the Go code panic at that
read (after the labels write), which is embedded as the `.crash` outcome,
not as an error return. -/
def Storage.updateCryptoKey (s : Storage) (keyName : String)
    (labels : Option (List (String × String))) : OpOutcome CryptoKeyProto × Storage :=
  match s.findCryptoKey keyName with
  | none => (.error (.cryptoKeyNotFound keyName), s)
  | some cryptoKey =>
    let cryptoKey' :=
      match labels with
      | some l => { cryptoKey with labels := l }
      | none => cryptoKey
    match lookupA cryptoKey'.versions cryptoKey'.primaryVersion with
    | none => (.crash, ⟨setCryptoKeyInRings s.keyrings keyName cryptoKey'⟩)
    | some primary =>
      (.ok { name := cryptoKey'.name, createTime := cryptoKey'.createTime,
             purpose := cryptoKey'.purpose, primary := versionProtoOf primary,
             versionTemplate := cryptoKey'.versionTemplate, labels := cryptoKey'.labels },
       ⟨setCryptoKeyInRings s.keyrings keyName cryptoKey'⟩)

/-- `Storage.ListKeyRings`: the `parent` argument is accepted but never read;
every stored keyring is returned, and the error is always `nil`. -/
def Storage.listKeyRings (s : Storage) (parent : String) :
    Except KmsErr (List KeyRingProto) :=
  .ok (s.keyrings.map fun q => { name := q.2.name, createTime := q.2.createTime })

/-! ## Server layer (`internal/server/server.go`)

Only the endpoints the claims need are embedded.  The server is embedded in
its IAM-disabled configuration (`iamClient == nil`, so `checkPermission`
always allows).  The server classifies storage errors by
`strings.Contains(err.Error(), …)`; since every storage error constructor has
a fixed message (noted on `KmsErr`), that dispatch is embedded per
constructor. -/

/-- gRPC status codes used by the embedded endpoints. -/
inductive Code where
  | invalidArgument
  | notFound
  | alreadyExists
  | failedPrecondition
  | internal
deriving DecidableEq

/-- Error translation of `Server.UpdateCryptoKeyPrimaryVersion`:
`strings.Contains(err.Error(), "not found")` is checked first and maps to
`NotFound`, then `Contains(…, "not enabled")` maps to `FailedPrecondition`,
anything else to `Internal`.  The checks run on the full message, which
embeds the unvalidated resource name. -/
def updatePrimaryVersionErrCode (e : KmsErr) : Code :=
  if strContains (errMessage e) "not found" then .notFound
  else if strContains (errMessage e) "not enabled" then .failedPrecondition
  else .internal

/-- Error translation of `Server.DestroyCryptoKeyVersion`:
`strings.Contains(err.Error(), "not found")` is checked first and maps to
`NotFound`, then `Contains(…, "already destroyed")` maps to
`FailedPrecondition`, anything else to `Internal`.  The checks run on the
full message, which embeds the unvalidated resource name. -/
def destroyVersionErrCode (e : KmsErr) : Code :=
  if strContains (errMessage e) "not found" then .notFound
  else if strContains (errMessage e) "already destroyed" then .failedPrecondition
  else .internal

/-- `Server.UpdateCryptoKeyPrimaryVersion` (IAM disabled): field validation,
version-name construction `fmt.Sprintf("%s/cryptoKeyVersions/%s", …)`, the
storage call, and status-code translation. -/
def serverUpdateCryptoKeyPrimaryVersion (s : Storage) (name cryptoKeyVersionId : String) :
    (Except Code CryptoKeyProto) × Storage :=
  if name = "" then (.error .invalidArgument, s)
  else if cryptoKeyVersionId = "" then (.error .invalidArgument, s)
  else
    let versionName := name ++ "/cryptoKeyVersions/" ++ cryptoKeyVersionId
    match s.updateCryptoKeyPrimaryVersion name versionName with
    | (.ok ck, s') => (.ok ck, s')
    | (.error e, s') => (.error (updatePrimaryVersionErrCode e), s')

/-- `Server.DestroyCryptoKeyVersion` (IAM disabled). -/
def serverDestroyCryptoKeyVersion (s : Storage) (name : String) :
    (Except Code CryptoKeyVersionProto) × Storage :=
  if name = "" then (.error .invalidArgument, s)
  else
    match s.destroyCryptoKeyVersion name with
    | (.ok v, s') => (.ok v, s')
    | (.error e, s') => (.error (destroyVersionErrCode e), s')

theorem updatePrimaryVersionErrCode_versionNotFound (vn : String) :
    updatePrimaryVersionErrCode (.versionNotFound vn) = .notFound := by
  rw [updatePrimaryVersionErrCode]
  rw [if_pos ?_]
  show strContains ("crypto key version not found: " ++ vn) "not found" = true
  exact strContains_append vn (by decide)

theorem updatePrimaryVersionErrCode_versionNotEnabled {vn : String}
    (h : strContains (errMessage (.versionNotEnabled vn)) "not found" = false) :
    updatePrimaryVersionErrCode (.versionNotEnabled vn) = .failedPrecondition := by
  rw [updatePrimaryVersionErrCode, if_neg (by simp [h])]
  rw [if_pos ?_]
  show strContains ("crypto key version is not enabled: " ++ vn) "not enabled" = true
  exact strContains_append vn (by decide)

theorem destroyVersionErrCode_versionNotFound (vn : String) :
    destroyVersionErrCode (.versionNotFound vn) = .notFound := by
  rw [destroyVersionErrCode]
  rw [if_pos ?_]
  show strContains ("crypto key version not found: " ++ vn) "not found" = true
  exact strContains_append vn (by decide)

theorem destroyVersionErrCode_alreadyDestroyed {vn : String}
    (h : strContains (errMessage (.versionAlreadyDestroyedOrScheduled vn)) "not found" = false) :
    destroyVersionErrCode (.versionAlreadyDestroyedOrScheduled vn) = .failedPrecondition := by
  rw [destroyVersionErrCode, if_neg (by simp [h])]
  rw [if_pos ?_]
  show strContains ("crypto key version already destroyed or scheduled: " ++ vn)
      "already destroyed" = true
  exact strContains_append vn (by decide)

/-! ## The mutating operations as a single dispatcher (for atomicity) -/

/-- One call to a mutating storage operation, with its arguments. -/
inductive MutOp where
  | createKeyRing (name : String) (now : Nat)
  | createCryptoKey (keyringName keyID : String) (purpose : Nat)
      (versionTemplate : Option CryptoKeyVersionTemplate) (labels : List (String × String))
      (symmetricKey : List Nat) (now : Nat)
  | createCryptoKeyVersion (keyName : String) (symmetricKey : List Nat) (now : Nat)
  | updateCryptoKeyPrimaryVersion (keyName versionName : String)
  | updateCryptoKeyVersion (versionName : String) (state : VersionState)
  | destroyCryptoKeyVersion (versionName : String)
  | updateCryptoKey (keyName : String) (labels : Option (List (String × String)))

/-- The (proto) result of a mutating storage operation. -/
inductive OpResult where
  | keyRing (p : KeyRingProto)
  | cryptoKey (p : CryptoKeyProto)
  | version (p : CryptoKeyVersionProto)
deriving DecidableEq

/-- Dispatch a mutating operation to its storage function. -/
def runMutOp : MutOp → Storage → OpOutcome OpResult × Storage
  | .createKeyRing name now, s =>
    (outcomeOfExcept ((s.createKeyRing name now).1.map .keyRing),
     (s.createKeyRing name now).2)
  | .createCryptoKey rn kid purpose tmpl labels key now, s =>
    (outcomeOfExcept ((s.createCryptoKey rn kid purpose tmpl labels key now).1.map .cryptoKey),
     (s.createCryptoKey rn kid purpose tmpl labels key now).2)
  | .createCryptoKeyVersion kn key now, s =>
    (outcomeOfExcept ((s.createCryptoKeyVersion kn key now).1.map .version),
     (s.createCryptoKeyVersion kn key now).2)
  | .updateCryptoKeyPrimaryVersion kn vn, s =>
    (outcomeOfExcept ((s.updateCryptoKeyPrimaryVersion kn vn).1.map .cryptoKey),
     (s.updateCryptoKeyPrimaryVersion kn vn).2)
  | .updateCryptoKeyVersion vn st, s =>
    (outcomeOfExcept ((s.updateCryptoKeyVersion vn st).1.map .version),
     (s.updateCryptoKeyVersion vn st).2)
  | .destroyCryptoKeyVersion vn, s =>
    (outcomeOfExcept ((s.destroyCryptoKeyVersion vn).1.map .version),
     (s.destroyCryptoKeyVersion vn).2)
  | .updateCryptoKey kn labels, s =>
    ((s.updateCryptoKey kn labels).1.map .cryptoKey, (s.updateCryptoKey kn labels).2)

/-! ## Version-id bookkeeping (for the monotonic-counter claims) -/

/-- A crypto key is well-versioned relative to the map key `keyName` under
which it is stored: the counter is at least 2 and every stored version is
keyed by `keyName ++ "/cryptoKeyVersions/" ++ i` for some id `1 ≤ i` strictly
below the counter. -/
def WellVersioned (keyName : String) (ck : StoredCryptoKey) : Prop :=
  2 ≤ ck.nextVersionID ∧
    ∀ p ∈ ck.versions, ∃ i, 1 ≤ i ∧ i < ck.nextVersionID ∧ p.1 = versionNameFor keyName i

/-- Per-crypto-key projection to map key, next-version counter and stored
version names. -/
def keyShape (q : String × StoredCryptoKey) : String × Nat × List String :=
  (q.1, q.2.nextVersionID, q.2.versions.map Prod.fst)

/-- Projection of a storage state to, per keyring and crypto key, the
next-version counter and the list of stored version names. -/
def versionIdShape (s : Storage) : List (String × List (String × Nat × List String)) :=
  s.keyrings.map fun p => (p.1, p.2.cryptoKeys.map keyShape)

theorem string_append_cancel_left {a b c : String} (h : a ++ b = a ++ c) : b = c := by
  cases a with
  | mk da =>
    cases b with
    | mk db =>
      cases c with
      | mk dc =>
        have hd : da ++ db = da ++ dc := congrArg String.data h
        exact congrArg String.mk (List.append_cancel_left hd)

theorem versionNameFor_inj {keyName : String} {i j : Nat} (hi : 1 ≤ i) (hj : 1 ≤ j)
    (h : versionNameFor keyName i = versionNameFor keyName j) : i = j :=
  goNatString_inj_pos hi hj (string_append_cancel_left h)

theorem versionNameFor_one (keyName : String) :
    keyName ++ "/cryptoKeyVersions/1" = versionNameFor keyName 1 := by
  rw [versionNameFor, String.append_assoc]
  have : "/cryptoKeyVersions/" ++ goNatString 1 = "/cryptoKeyVersions/1" := by decide
  rw [this]

/-! ## Interaction lemmas between finds and write-backs -/

theorem findCryptoKeyInRings_set {rings : List (String × StoredKeyRing)} {keyName : String}
    {ck : StoredCryptoKey} (h : findCryptoKeyInRings rings keyName = some ck)
    (ck' : StoredCryptoKey) :
    findCryptoKeyInRings (setCryptoKeyInRings rings keyName ck') keyName = some ck' := by
  induction rings with
  | nil => simp [findCryptoKeyInRings] at h
  | cons p rest ih =>
    rw [findCryptoKeyInRings] at h
    cases hl : lookupA p.2.cryptoKeys keyName with
    | some ck0 =>
      cases p
      simp only [setCryptoKeyInRings, hl, findCryptoKeyInRings]
      rw [lookupA_insertA_self]
    | none =>
      rw [hl] at h
      cases p
      simp only [setCryptoKeyInRings, hl, findCryptoKeyInRings]
      exact ih h

theorem findVersionInKeys_set {keys : List (String × StoredCryptoKey)} {versionName : String}
    {v : StoredCryptoKeyVersion} (h : findVersionInKeys keys versionName = some v)
    (v' : StoredCryptoKeyVersion) :
    findVersionInKeys (setVersionInKeys keys versionName v') versionName = some v' := by
  induction keys with
  | nil => simp [findVersionInKeys] at h
  | cons p rest ih =>
    rw [findVersionInKeys] at h
    cases hl : lookupA p.2.versions versionName with
    | some v0 =>
      cases p
      simp only [setVersionInKeys, hl, findVersionInKeys]
      rw [lookupA_insertA_self]
    | none =>
      rw [hl] at h
      cases p
      simp only [setVersionInKeys, hl, findVersionInKeys]
      exact ih h

theorem findVersionInRings_set {rings : List (String × StoredKeyRing)} {versionName : String}
    {v : StoredCryptoKeyVersion} (h : findVersionInRings rings versionName = some v)
    (v' : StoredCryptoKeyVersion) :
    findVersionInRings (setVersionInRings rings versionName v') versionName = some v' := by
  induction rings with
  | nil => simp [findVersionInRings] at h
  | cons p rest ih =>
    rw [findVersionInRings] at h
    cases hf : findVersionInKeys p.2.cryptoKeys versionName with
    | some v0 =>
      cases p
      simp only [setVersionInRings, hf, findVersionInRings]
      rw [findVersionInKeys_set hf]
    | none =>
      rw [hf] at h
      cases p
      simp only [setVersionInRings, hf, findVersionInRings]
      exact ih h

/-! ## Shape preservation by version-state writes -/

theorem setVersionInKeys_shape (keys : List (String × StoredCryptoKey))
    (versionName : String) (v : StoredCryptoKeyVersion) :
    (setVersionInKeys keys versionName v).map keyShape = keys.map keyShape := by
  induction keys with
  | nil => rfl
  | cons p rest ih =>
    cases p with
    | mk kn ck =>
      rw [setVersionInKeys]
      cases hl : lookupA ck.versions versionName with
      | some v0 =>
        simp only [List.map_cons, keyShape]
        rw [insertA_keys_of_lookup hl]
      | none =>
        simp only [List.map_cons, ih]

theorem setVersionInRings_shape (rings : List (String × StoredKeyRing))
    (versionName : String) (v : StoredCryptoKeyVersion) :
    (setVersionInRings rings versionName v).map
        (fun p => (p.1, p.2.cryptoKeys.map keyShape))
      = rings.map (fun p => (p.1, p.2.cryptoKeys.map keyShape)) := by
  induction rings with
  | nil => rfl
  | cons p rest ih =>
    cases p with
    | mk rn kr =>
      rw [setVersionInRings]
      cases hf : findVersionInKeys kr.cryptoKeys versionName with
      | some v0 =>
        simp only [List.map_cons]
        rw [setVersionInKeys_shape]
      | none =>
        simp only [List.map_cons, ih]

theorem versionIdShape_setVersionInRings (s : Storage) (versionName : String)
    (v : StoredCryptoKeyVersion) :
    versionIdShape ⟨setVersionInRings s.keyrings versionName v⟩ = versionIdShape s :=
  setVersionInRings_shape s.keyrings versionName v

/-! ## Well-versioned keys -/

theorem wellVersioned_fresh {keyName : String} {ck : StoredCryptoKey}
    (h : WellVersioned keyName ck) :
    lookupA ck.versions (versionNameFor keyName ck.nextVersionID) = none := by
  cases hl : lookupA ck.versions (versionNameFor keyName ck.nextVersionID) with
  | none => rfl
  | some v =>
    exfalso
    rcases h.2 _ (lookupA_mem hl) with ⟨i, hi1, hi2, hi3⟩
    have hi3' : versionNameFor keyName ck.nextVersionID = versionNameFor keyName i := hi3
    have h2 := h.1
    have : ck.nextVersionID = i := versionNameFor_inj (by omega) hi1 hi3'
    omega

theorem wellVersioned_step {keyName : String} {ck : StoredCryptoKey}
    (h : WellVersioned keyName ck) (v : StoredCryptoKeyVersion) :
    WellVersioned keyName
      { ck with versions := insertA ck.versions (versionNameFor keyName ck.nextVersionID) v,
                nextVersionID := ck.nextVersionID + 1 } := by
  have h1 := h.1
  constructor
  · show 2 ≤ ck.nextVersionID + 1
    omega
  · intro p hp
    have hp' : p ∈ insertA ck.versions (versionNameFor keyName ck.nextVersionID) v := hp
    rcases mem_insertA hp' with hm | hm
    · refine ⟨ck.nextVersionID, by omega, ?_, by rw [hm]⟩
      show ck.nextVersionID < ck.nextVersionID + 1
      omega
    · rcases h.2 _ hm with ⟨i, hi1, hi2, hi3⟩
      refine ⟨i, hi1, ?_, hi3⟩
      show i < ck.nextVersionID + 1
      omega

/-! ## Decrypt-loop characterization -/

theorem decryptLoop_ok_char {vs : List (String × StoredCryptoKeyVersion)}
    {ct pt : List Nat} (h : decryptLoop vs ct = .ok pt) :
    ∃ pre n v post, vs = pre ++ (n, v) :: post ∧ v.state = .enabled ∧
      decryptWithVersion v ct = .ok pt ∧
      ∀ q ∈ pre, q.2.state = .enabled →
        ∀ r : List Nat, decryptWithVersion q.2 ct ≠ .ok r := by
  induction vs with
  | nil => simp [decryptLoop] at h
  | cons p rest ih =>
    cases p with
    | mk n v =>
      rw [decryptLoop] at h
      by_cases hs : v.state = .enabled
      · rw [if_neg (by simp [hs])] at h
        cases hd : decryptWithVersion v ct with
        | ok r =>
          rw [hd] at h
          cases h
          exact ⟨[], n, v, rest, by simp, hs, hd, by simp⟩
        | error e =>
          rw [hd] at h
          rcases ih h with ⟨pre, n', v', post, h1, h2, h3, h4⟩
          refine ⟨(n, v) :: pre, n', v', post, by simp [h1], h2, h3, ?_⟩
          intro q hq hqe r
          rcases List.mem_cons.mp hq with h5 | h5
          · subst h5
            intro hcon
            rw [hcon] at hd
            cases hd
          · exact h4 q h5 hqe r
      · rw [if_pos (by simp [hs])] at h
        rcases ih h with ⟨pre, n', v', post, h1, h2, h3, h4⟩
        refine ⟨(n, v) :: pre, n', v', post, by simp [h1], h2, h3, ?_⟩
        intro q hq hqe r
        rcases List.mem_cons.mp hq with h5 | h5
        · subst h5
          exact absurd hqe hs
        · exact h4 q h5 hqe r

theorem decryptLoop_all_fail {vs : List (String × StoredCryptoKeyVersion)} {ct : List Nat}
    (h : ∀ q ∈ vs, q.2.state = .enabled →
        ∀ r : List Nat, decryptWithVersion q.2 ct ≠ .ok r) :
    decryptLoop vs ct = .error .decryptAllVersionsFailed := by
  induction vs with
  | nil => rfl
  | cons p rest ih =>
    cases p with
    | mk n v =>
      rw [decryptLoop]
      by_cases hs : v.state = .enabled
      · rw [if_neg (by simp [hs])]
        cases hd : decryptWithVersion v ct with
        | ok r => exact absurd hd (h (n, v) (List.mem_cons_self _ _) hs r)
        | error e => exact ih fun q hq => h q (List.mem_cons_of_mem _ hq)
      · rw [if_pos (by simp [hs])]
        exact ih fun q hq => h q (List.mem_cons_of_mem _ hq)

theorem decryptLoop_finds {vs : List (String × StoredCryptoKeyVersion)}
    {key nonce pt : List Nat} {n0 : String} {v0 : StoredCryptoKeyVersion}
    (hmem : (n0, v0) ∈ vs) (hs : v0.state = .enabled) (hk : v0.symmetricKey = key)
    (hcipher : aesNewCipher key = some key) (hn : nonce.length = gcmNonceSize) :
    decryptLoop vs (nonce ++ gcmSeal key nonce pt) = .ok pt := by
  have h12 : gcmNonceSize = 12 := rfl
  have hlen : ¬ (nonce ++ gcmSeal key nonce pt).length < gcmNonceSize := by
    simp only [List.length_append, gcmSeal, List.length_singleton]
    omega
  have hopen : ∀ w : StoredCryptoKeyVersion, ∀ r : List Nat,
      decryptWithVersion w (nonce ++ gcmSeal key nonce pt) = .ok r → r = pt := by
    intro w r hw
    cases hc : aesNewCipher w.symmetricKey with
    | none => simp [decryptWithVersion, hc] at hw
    | some wk =>
      simp only [decryptWithVersion, hc, if_neg hlen] at hw
      rw [← hn, List.take_left, List.drop_left] at hw
      cases ho : gcmOpen wk nonce (gcmSeal key nonce pt) with
      | none =>
        simp only [ho] at hw
        cases hw
      | some res =>
        simp only [ho] at hw
        cases hw
        exact (gcmOpen_gcmSeal_other ho).2.2
  have hsucc : decryptWithVersion v0 (nonce ++ gcmSeal key nonce pt) = .ok pt := by
    simp only [decryptWithVersion, hk, hcipher, if_neg hlen]
    rw [← hn, List.take_left, List.drop_left, gcmOpen_gcmSeal]
  induction vs with
  | nil => simp at hmem
  | cons p rest ih =>
    cases p with
    | mk n w =>
      rw [decryptLoop]
      by_cases hws : w.state = .enabled
      · rw [if_neg (by simp [hws])]
        cases hd : decryptWithVersion w (nonce ++ gcmSeal key nonce pt) with
        | ok r => rw [hopen w r hd]
        | error e =>
          rcases List.mem_cons.mp hmem with hm | hm
          · exfalso
            have hw0 : w = v0 := by cases hm; rfl
            rw [hw0, hsucc] at hd
            cases hd
          · exact ih hm
      · rw [if_pos (by simp [hws])]
        rcases List.mem_cons.mp hmem with hm | hm
        · exfalso
          have hw0 : w = v0 := by cases hm; rfl
          rw [hw0] at hws
          exact hws hs
        · exact ih hm

/-! ## Small facts about the operations -/

theorem aesNewCipher_some {x y : List Nat} (h : aesNewCipher x = some y) : y = x := by
  rw [aesNewCipher] at h
  split at h
  · cases h; rfl
  · cases h

theorem except_map_error {α β : Type} {x : Except KmsErr α} {f : α → β} {e : KmsErr}
    (h : x.map f = .error e) : x = .error e := by
  cases x with
  | error e' =>
    simp only [Except.map] at h
    cases h
    rfl
  | ok a => simp [Except.map] at h

theorem outcomeOfExcept_error {α : Type} {x : Except KmsErr α} {e : KmsErr}
    (h : outcomeOfExcept x = .error e) : x = .error e := by
  cases x with
  | error e' =>
    simp only [outcomeOfExcept] at h
    cases h
    rfl
  | ok a => simp [outcomeOfExcept] at h

theorem opOutcome_map_error {α β : Type} {x : OpOutcome α} {f : α → β} {e : KmsErr}
    (h : x.map f = .error e) : x = .error e := by
  cases x with
  | error e' =>
    simp only [OpOutcome.map] at h
    cases h
    rfl
  | ok a => simp [OpOutcome.map] at h
  | crash => simp [OpOutcome.map] at h

theorem createKeyRing_error {s : Storage} {n : String} {now : Nat} {e : KmsErr}
    (h : (Storage.createKeyRing s n now).1 = .error e) :
    (Storage.createKeyRing s n now).2 = s := by
  cases hl : lookupA s.keyrings n with
  | some kr => simp [Storage.createKeyRing, hl]
  | none => simp [Storage.createKeyRing, hl] at h

theorem createCryptoKey_error {s : Storage} {rn kid : String} {purpose : Nat}
    {tmpl : Option CryptoKeyVersionTemplate} {labels : List (String × String)}
    {symKey : List Nat} {now : Nat} {e : KmsErr}
    (h : (Storage.createCryptoKey s rn kid purpose tmpl labels symKey now).1 = .error e) :
    (Storage.createCryptoKey s rn kid purpose tmpl labels symKey now).2 = s := by
  cases h1 : lookupA s.keyrings rn with
  | none => simp [Storage.createCryptoKey, h1]
  | some kr =>
    cases h2 : lookupA kr.cryptoKeys (rn ++ "/cryptoKeys/" ++ kid) with
    | some ck => simp [Storage.createCryptoKey, h1, h2]
    | none => simp [Storage.createCryptoKey, h1, h2] at h

theorem createCryptoKeyVersion_error {s : Storage} {kn : String} {symKey : List Nat}
    {now : Nat} {e : KmsErr}
    (h : (Storage.createCryptoKeyVersion s kn symKey now).1 = .error e) :
    (Storage.createCryptoKeyVersion s kn symKey now).2 = s := by
  cases h1 : s.findCryptoKey kn with
  | none => simp [Storage.createCryptoKeyVersion, h1]
  | some ck => simp [Storage.createCryptoKeyVersion, h1] at h

theorem updateCryptoKeyPrimaryVersion_error {s : Storage} {kn vn : String} {e : KmsErr}
    (h : (Storage.updateCryptoKeyPrimaryVersion s kn vn).1 = .error e) :
    (Storage.updateCryptoKeyPrimaryVersion s kn vn).2 = s := by
  cases h1 : s.findCryptoKey kn with
  | none => simp [Storage.updateCryptoKeyPrimaryVersion, h1]
  | some ck =>
    cases h2 : lookupA ck.versions vn with
    | none => simp [Storage.updateCryptoKeyPrimaryVersion, h1, h2]
    | some v =>
      by_cases hs : v.state = .enabled
      · simp [Storage.updateCryptoKeyPrimaryVersion, h1, h2, hs] at h
      · simp [Storage.updateCryptoKeyPrimaryVersion, h1, h2, hs]

theorem updateCryptoKeyVersion_error {s : Storage} {vn : String} {st : VersionState}
    {e : KmsErr} (h : (Storage.updateCryptoKeyVersion s vn st).1 = .error e) :
    (Storage.updateCryptoKeyVersion s vn st).2 = s := by
  cases h1 : findVersionInRings s.keyrings vn with
  | none => simp [Storage.updateCryptoKeyVersion, h1]
  | some v => simp [Storage.updateCryptoKeyVersion, h1] at h

theorem destroyCryptoKeyVersion_error {s : Storage} {vn : String} {e : KmsErr}
    (h : (Storage.destroyCryptoKeyVersion s vn).1 = .error e) :
    (Storage.destroyCryptoKeyVersion s vn).2 = s := by
  cases h1 : findVersionInRings s.keyrings vn with
  | none => simp [Storage.destroyCryptoKeyVersion, h1]
  | some v =>
    by_cases hg : v.state = .destroyed ∨ v.state = .destroyScheduled
    · simp [Storage.destroyCryptoKeyVersion, h1, hg]
    · simp [Storage.destroyCryptoKeyVersion, h1, hg] at h

theorem updateCryptoKey_error {s : Storage} {kn : String}
    {labels : Option (List (String × String))} {e : KmsErr}
    (h : (Storage.updateCryptoKey s kn labels).1 = .error e) :
    (Storage.updateCryptoKey s kn labels).2 = s := by
  cases h1 : s.findCryptoKey kn with
  | none => simp [Storage.updateCryptoKey, h1]
  | some ck =>
    exfalso
    simp only [Storage.updateCryptoKey, h1] at h
    split at h <;> cases h

/-! ## Concrete example states (used by witnesses and counterexamples) -/

/-- 32 zero bytes standing for generated AES-256 key material. -/
def exKey1 : List Nat := List.replicate 32 0

/-- 12 zero bytes standing for a generated GCM nonce. -/
def exNonce : List Nat := List.replicate 12 0

/-- State with one keyring `"r"`. -/
def exS1 : Storage := (Storage.createKeyRing ⟨[]⟩ "r" 0).2

/-- State with keyring `"r"` and crypto key `"r/cryptoKeys/k"` (one version). -/
def exS2 : Storage := (Storage.createCryptoKey exS1 "r" "k" 1 none [] exKey1 1).2

/-- The stored version of `exS2`'s single crypto key. -/
def exVersion1 : StoredCryptoKeyVersion :=
  { name := "r/cryptoKeys/k/cryptoKeyVersions/1", state := .enabled, createTime := 1,
    algorithm := 1, symmetricKey := exKey1 }

/-- The stored crypto key of `exS2`. -/
def exCK : StoredCryptoKey :=
  { name := "r/cryptoKeys/k", createTime := 1, purpose := 1,
    primaryVersion := "r/cryptoKeys/k/cryptoKeyVersions/1",
    versions := [("r/cryptoKeys/k/cryptoKeyVersions/1", exVersion1)],
    nextVersionID := 2, versionTemplate := none, labels := [] }

/-- `exS2` with its only version disabled. -/
def exS2d : Storage :=
  (Storage.updateCryptoKeyVersion exS2 "r/cryptoKeys/k/cryptoKeyVersions/1" .disabled).2

/-- `exS2` with its only version already destroy-scheduled. -/
def exS2s : Storage :=
  (Storage.destroyCryptoKeyVersion exS2 "r/cryptoKeys/k/cryptoKeyVersions/1").2

/-- State built through the ordinary API whose keyring name — and hence every
derived resource name — contains the substring "not found" (the emulator
performs no name validation). -/
def exS2nf : Storage :=
  (Storage.createCryptoKey (Storage.createKeyRing ⟨[]⟩ "not found" 0).2
    "not found" "k" 1 none [] exKey1 1).2

/-- `exS2nf` with its only version already destroy-scheduled. -/
def exS2nfs : Storage :=
  (Storage.destroyCryptoKeyVersion exS2nf "not found/cryptoKeys/k/cryptoKeyVersions/1").2

/-! ## Claim theorems -/

/-- C10: for every storage state and every parent argument, `ListKeyRings`
returns all keyrings present in storage; the parent argument is never used to
filter the result (any two parent values give the same answer). -/
theorem C10_listKeyRings_ignores_parent (s : Storage) (parent parent' : String) :
    s.listKeyRings parent = s.listKeyRings parent' ∧
    s.listKeyRings parent =
      .ok (s.keyrings.map fun q => { name := q.2.name, createTime := q.2.createTime }) :=
  ⟨rfl, rfl⟩

/-- C4: `Encrypt` uses only the version currently marked primary — on success
the ciphertext is built from the primary version's key material — and it
fails with the "primary version is not enabled" error whenever the primary
version's state is not ENABLED. -/
theorem C4_encrypt_primary_gate (s : Storage) (keyName : String) (p nonce : List Nat)
    (ck : StoredCryptoKey) (pv : StoredCryptoKeyVersion)
    (hck : s.findCryptoKey keyName = some ck)
    (hpv : lookupA ck.versions ck.primaryVersion = some pv) :
    (pv.state ≠ .enabled → s.encrypt keyName p nonce = .error .primaryVersionNotEnabled) ∧
    (∀ ct, s.encrypt keyName p nonce = .ok ct →
      pv.state = .enabled ∧ ct = nonce ++ gcmSeal pv.symmetricKey nonce p) := by
  constructor
  · intro hne
    simp only [Storage.encrypt, hck, hpv]
    rw [if_pos hne]
  · intro ct hct
    simp only [Storage.encrypt, hck, hpv] at hct
    by_cases hs : pv.state = .enabled
    · rw [if_neg (by simp [hs])] at hct
      cases hc : aesNewCipher pv.symmetricKey with
      | none => simp only [hc] at hct; cases hct
      | some k =>
        simp only [hc] at hct
        cases hct
        exact ⟨hs, by rw [aesNewCipher_some hc]⟩
    · rw [if_pos hs] at hct
      cases hct

theorem C4_encrypt_primary_gate_witness :
    exVersion1.state ≠ .disabled ∧
    (∀ ct, exS2.encrypt "r/cryptoKeys/k" [1, 2] exNonce = .ok ct →
      exVersion1.state = .enabled ∧ ct = exNonce ++ gcmSeal exVersion1.symmetricKey exNonce [1, 2]) :=
  ⟨by decide,
   (C4_encrypt_primary_gate exS2 "r/cryptoKeys/k" [1, 2] exNonce exCK exVersion1 rfl rfl).2⟩

/-- C3: `Decrypt` attempts authenticated decryption only against versions in
state ENABLED (non-enabled versions are skipped), returns the plaintext of
the first version (in iteration order) that succeeds, and when no enabled
version succeeds it fails with the single aggregate
"failed to decrypt with any key version" error, which carries no per-version
information. -/
theorem C3_decrypt_enabled_versions (s : Storage) (keyName : String) (ct : List Nat)
    (ck : StoredCryptoKey) (hck : s.findCryptoKey keyName = some ck) :
    (∀ pt, s.decrypt keyName ct = .ok pt →
      ∃ pre n v post, ck.versions = pre ++ (n, v) :: post ∧ v.state = .enabled ∧
        decryptWithVersion v ct = .ok pt ∧
        ∀ q ∈ pre, q.2.state = .enabled →
          ∀ r : List Nat, decryptWithVersion q.2 ct ≠ .ok r) ∧
    ((∀ q ∈ ck.versions, q.2.state = .enabled →
        ∀ r : List Nat, decryptWithVersion q.2 ct ≠ .ok r) →
      s.decrypt keyName ct = .error .decryptAllVersionsFailed) := by
  constructor
  · intro pt h
    simp only [Storage.decrypt, hck] at h
    exact decryptLoop_ok_char h
  · intro hall
    simp only [Storage.decrypt, hck]
    exact decryptLoop_all_fail hall

theorem C3_decrypt_enabled_versions_witness :
    exS2.findCryptoKey "r/cryptoKeys/k" = some exCK ∧
    ((∀ q ∈ exCK.versions, q.2.state = .enabled →
        ∀ r : List Nat, decryptWithVersion q.2 [] ≠ .ok r) →
      exS2.decrypt "r/cryptoKeys/k" [] = .error .decryptAllVersionsFailed) :=
  ⟨rfl, (C3_decrypt_enabled_versions exS2 "r/cryptoKeys/k" [] exCK rfl).2⟩

/-- C1: round trip.  If the primary version of a stored crypto key is ENABLED
(with its generated 32-byte key and a fresh 12-byte nonce), `Encrypt`
succeeds, and `Decrypt` of the produced ciphertext in any later state in
which that same version (same name, same key material) is still ENABLED
returns the original plaintext. -/
theorem C1_round_trip (s₁ s₂ : Storage) (keyName : String) (p nonce : List Nat)
    (ck₁ : StoredCryptoKey) (pv : StoredCryptoKeyVersion)
    (ck₂ : StoredCryptoKey) (v₂ : StoredCryptoKeyVersion)
    (h1 : s₁.findCryptoKey keyName = some ck₁)
    (h2 : lookupA ck₁.versions ck₁.primaryVersion = some pv)
    (h3 : pv.state = .enabled)
    (h4 : pv.symmetricKey.length = 32)
    (h5 : nonce.length = gcmNonceSize)
    (h6 : s₂.findCryptoKey keyName = some ck₂)
    (h7 : lookupA ck₂.versions ck₁.primaryVersion = some v₂)
    (h8 : v₂.state = .enabled)
    (h9 : v₂.symmetricKey = pv.symmetricKey) :
    s₁.encrypt keyName p nonce = .ok (nonce ++ gcmSeal pv.symmetricKey nonce p) ∧
    s₂.decrypt keyName (nonce ++ gcmSeal pv.symmetricKey nonce p) = .ok p := by
  have hcipher : aesNewCipher pv.symmetricKey = some pv.symmetricKey := by
    rw [aesNewCipher, if_pos (Or.inr (Or.inr h4))]
  constructor
  · simp only [Storage.encrypt, h1, h2]
    rw [if_neg (by simp [h3]), hcipher]
  · simp only [Storage.decrypt, h6]
    exact decryptLoop_finds (lookupA_mem h7) h8 h9 hcipher h5

theorem C1_round_trip_witness :
    exS2.findCryptoKey "r/cryptoKeys/k" = some exCK ∧
    lookupA exCK.versions exCK.primaryVersion = some exVersion1 ∧
    exVersion1.state = .enabled ∧
    (exS2.encrypt "r/cryptoKeys/k" [7, 7, 7] exNonce =
        .ok (exNonce ++ gcmSeal exVersion1.symmetricKey exNonce [7, 7, 7]) ∧
      exS2.decrypt "r/cryptoKeys/k" (exNonce ++ gcmSeal exVersion1.symmetricKey exNonce [7, 7, 7]) =
        .ok [7, 7, 7]) :=
  ⟨rfl, rfl, rfl,
    C1_round_trip exS2 exS2 "r/cryptoKeys/k" [7, 7, 7] exNonce exCK exVersion1 exCK exVersion1
      rfl rfl rfl rfl rfl rfl rfl rfl rfl⟩

/-- C2: a successful `CreateCryptoKey` returns a key whose primary is the
version named `…/cryptoKeyVersions/1` in state ENABLED; the stored key (one
pure state transition, atomic under the writer lock) holds exactly that one
version, that version is the primary, and the next-version counter is 2 — so
the next `CreateCryptoKeyVersion` on the stored key yields id 2. -/
theorem C2_create_key_initial_version (s : Storage) (ringName keyID : String) (purpose : Nat)
    (tmpl : Option CryptoKeyVersionTemplate) (labels : List (String × String))
    (symKey : List Nat) (now : Nat) (kr : StoredKeyRing)
    (hring : lookupA s.keyrings ringName = some kr)
    (hfresh : lookupA kr.cryptoKeys (ringName ++ "/cryptoKeys/" ++ keyID) = none) :
    (s.createCryptoKey ringName keyID purpose tmpl labels symKey now).1 =
      .ok { name := ringName ++ "/cryptoKeys/" ++ keyID, createTime := now, purpose := purpose,
            primary := { name := ringName ++ "/cryptoKeys/" ++ keyID ++ "/cryptoKeyVersions/1",
                         state := .enabled, createTime := now,
                         algorithm := templateAlgorithm tmpl },
            versionTemplate := tmpl, labels := labels } ∧
    ∃ kr' ck,
      lookupA (s.createCryptoKey ringName keyID purpose tmpl labels symKey now).2.keyrings
          ringName = some kr' ∧
      lookupA kr'.cryptoKeys (ringName ++ "/cryptoKeys/" ++ keyID) = some ck ∧
      ck.versions =
        [(ringName ++ "/cryptoKeys/" ++ keyID ++ "/cryptoKeyVersions/1",
          { name := ringName ++ "/cryptoKeys/" ++ keyID ++ "/cryptoKeyVersions/1",
            state := .enabled, createTime := now, algorithm := templateAlgorithm tmpl,
            symmetricKey := symKey })] ∧
      ck.primaryVersion = ringName ++ "/cryptoKeys/" ++ keyID ++ "/cryptoKeyVersions/1" ∧
      ck.nextVersionID = 2 ∧
      (∀ (s₂ : Storage) (symKey₂ : List Nat) (now₂ : Nat),
        s₂.findCryptoKey (ringName ++ "/cryptoKeys/" ++ keyID) = some ck →
        (s₂.createCryptoKeyVersion (ringName ++ "/cryptoKeys/" ++ keyID) symKey₂ now₂).1 =
          .ok { name := versionNameFor (ringName ++ "/cryptoKeys/" ++ keyID) 2,
                state := .enabled, createTime := now₂,
                algorithm := templateAlgorithm tmpl }) := by
  constructor
  · simp only [Storage.createCryptoKey, hring, hfresh]
  · simp only [Storage.createCryptoKey, hring, hfresh]
    refine ⟨_, _, lookupA_insertA_self _ _ _, lookupA_insertA_self _ _ _, rfl, rfl, rfl, ?_⟩
    intro s₂ symKey₂ now₂ h₂
    simp only [Storage.createCryptoKeyVersion, h₂]
    rfl

theorem C2_create_key_initial_version_witness :
    lookupA exS1.keyrings "r" = some { name := "r", createTime := 0, cryptoKeys := [] } ∧
    (Storage.createCryptoKey exS1 "r" "k" 1 none [] exKey1 1).1 =
      .ok { name := "r" ++ "/cryptoKeys/" ++ "k", createTime := 1, purpose := 1,
            primary := { name := "r" ++ "/cryptoKeys/" ++ "k" ++ "/cryptoKeyVersions/1",
                         state := .enabled, createTime := 1,
                         algorithm := templateAlgorithm none },
            versionTemplate := none, labels := [] } :=
  ⟨rfl,
    (C2_create_key_initial_version exS1 "r" "k" 1 none [] exKey1 1
      { name := "r", createTime := 0, cryptoKeys := [] } rfl rfl).1⟩

/-- C9 (counterexample): `CreateCryptoKeyVersion` does not leave every other
field of the key unchanged — on the concrete two-state run below the call
succeeds, yet the stored key's `NextVersionID` field changes from 2 to 3. -/
theorem C9_counterexample :
    (Storage.createCryptoKeyVersion exS2 "r/cryptoKeys/k" (List.replicate 32 1) 5).1 =
      .ok { name := "r/cryptoKeys/k/cryptoKeyVersions/2", state := .enabled,
            createTime := 5, algorithm := 1 } ∧
    Option.map StoredCryptoKey.nextVersionID (exS2.findCryptoKey "r/cryptoKeys/k") = some 2 ∧
    Option.map StoredCryptoKey.nextVersionID
      ((Storage.createCryptoKeyVersion exS2 "r/cryptoKeys/k"
          (List.replicate 32 1) 5).2.findCryptoKey "r/cryptoKeys/k") = some 3 ∧
    (2 : Nat) ≠ 3 :=
  ⟨rfl, rfl, rfl, by decide⟩

/-- C9 (amended): a successful `CreateCryptoKeyVersion` adds one new version
with the provided fresh key material and state ENABLED, leaves every other
field of the key except the next-version counter unchanged — in particular
the primary-version pointer still references the same version as before —
leaves every previously stored version binding unchanged, and increments the
counter by one. -/
theorem C9_create_version_frame (s : Storage) (keyName : String) (symKey : List Nat)
    (now : Nat) (ck : StoredCryptoKey) (hck : s.findCryptoKey keyName = some ck) :
    (s.createCryptoKeyVersion keyName symKey now).1 =
      .ok { name := versionNameFor keyName ck.nextVersionID, state := .enabled,
            createTime := now, algorithm := templateAlgorithm ck.versionTemplate } ∧
    ∃ ck', (s.createCryptoKeyVersion keyName symKey now).2.findCryptoKey keyName = some ck' ∧
      ck'.name = ck.name ∧ ck'.createTime = ck.createTime ∧ ck'.purpose = ck.purpose ∧
      ck'.primaryVersion = ck.primaryVersion ∧ ck'.versionTemplate = ck.versionTemplate ∧
      ck'.labels = ck.labels ∧ ck'.nextVersionID = ck.nextVersionID + 1 ∧
      lookupA ck'.versions (versionNameFor keyName ck.nextVersionID) =
        some { name := versionNameFor keyName ck.nextVersionID, state := .enabled,
               createTime := now, algorithm := templateAlgorithm ck.versionTemplate,
               symmetricKey := symKey } ∧
      (∀ n, n ≠ versionNameFor keyName ck.nextVersionID →
        lookupA ck'.versions n = lookupA ck.versions n) := by
  constructor
  · simp only [Storage.createCryptoKeyVersion, hck, versionProtoOf]
  · refine ⟨{ ck with
        versions := insertA ck.versions (versionNameFor keyName ck.nextVersionID)
          { name := versionNameFor keyName ck.nextVersionID, state := .enabled,
            createTime := now, algorithm := templateAlgorithm ck.versionTemplate,
            symmetricKey := symKey },
        nextVersionID := ck.nextVersionID + 1 },
      ?_, rfl, rfl, rfl, rfl, rfl, rfl, rfl, ?_, ?_⟩
    · simp only [Storage.createCryptoKeyVersion, hck]
      exact findCryptoKeyInRings_set hck _
    · exact lookupA_insertA_self _ _ _
    · intro n hn
      exact lookupA_insertA_ne _ _ _ _ hn

theorem C9_create_version_frame_witness :
    exS2.findCryptoKey "r/cryptoKeys/k" = some exCK ∧
    (Storage.createCryptoKeyVersion exS2 "r/cryptoKeys/k" (List.replicate 32 1) 5).1 =
      .ok { name := versionNameFor "r/cryptoKeys/k" exCK.nextVersionID, state := .enabled,
            createTime := 5, algorithm := templateAlgorithm exCK.versionTemplate } :=
  ⟨rfl, (C9_create_version_frame exS2 "r/cryptoKeys/k" (List.replicate 32 1) 5 exCK rfl).1⟩

/-- C5 (counterexample): `UpdateCryptoKeyPrimaryVersion` targeting a version
that does not exist fails with `NotFound`, not `FailedPrecondition` — the
storage "crypto key version not found" message is mapped by the server's
`strings.Contains(…, "not found")` branch before the "not enabled" branch. -/
theorem C5_counterexample :
    (serverUpdateCryptoKeyPrimaryVersion exS2 "r/cryptoKeys/k" "7").1 = .error .notFound ∧
    Code.notFound ≠ Code.failedPrecondition :=
  ⟨rfl, by decide⟩

/-- C5 (amended): `UpdateCryptoKeyPrimaryVersion(keyName, versionId)` fails
with `NotFound` when the target version does not exist; when the version
exists but is not in state ENABLED it fails with `FailedPrecondition`,
provided the storage error message — which embeds the unvalidated version
resource name — does not itself contain the substring "not found" (the
server classifies storage errors by substring matching and checks
"not found" first, so such names yield `NotFound` instead); in both failure
cases the state is unchanged.  Otherwise it atomically repoints the key's
primary reference to that version. -/
theorem C5_update_primary_version (s : Storage) (name versionId : String)
    (ck : StoredCryptoKey) (hname : name ≠ "") (hvid : versionId ≠ "")
    (hck : s.findCryptoKey name = some ck) :
    (lookupA ck.versions (name ++ "/cryptoKeyVersions/" ++ versionId) = none →
      serverUpdateCryptoKeyPrimaryVersion s name versionId = (.error .notFound, s)) ∧
    (∀ v, lookupA ck.versions (name ++ "/cryptoKeyVersions/" ++ versionId) = some v →
      v.state ≠ .enabled →
      strContains
          (errMessage (.versionNotEnabled (name ++ "/cryptoKeyVersions/" ++ versionId)))
          "not found" = false →
      serverUpdateCryptoKeyPrimaryVersion s name versionId =
        (.error .failedPrecondition, s)) ∧
    (∀ v, lookupA ck.versions (name ++ "/cryptoKeyVersions/" ++ versionId) = some v →
      v.state = .enabled →
      (serverUpdateCryptoKeyPrimaryVersion s name versionId).1 =
        .ok { name := ck.name, createTime := ck.createTime, purpose := ck.purpose,
              primary := versionProtoOf v, versionTemplate := ck.versionTemplate,
              labels := ck.labels } ∧
      (serverUpdateCryptoKeyPrimaryVersion s name versionId).2.findCryptoKey name =
        some { ck with primaryVersion := name ++ "/cryptoKeyVersions/" ++ versionId }) := by
  refine ⟨?_, ?_, ?_⟩
  · intro hnone
    have hcode :=
      updatePrimaryVersionErrCode_versionNotFound (name ++ "/cryptoKeyVersions/" ++ versionId)
    simp only [serverUpdateCryptoKeyPrimaryVersion, if_neg hname, if_neg hvid,
      Storage.updateCryptoKeyPrimaryVersion, hck, hnone, hcode]
  · intro v hv hs hmsg
    have hcode := updatePrimaryVersionErrCode_versionNotEnabled hmsg
    simp only [serverUpdateCryptoKeyPrimaryVersion, if_neg hname, if_neg hvid,
      Storage.updateCryptoKeyPrimaryVersion, hck, hv]
    rw [if_pos hs]
    simp only [hcode]
  · intro v hv hs
    constructor
    · simp only [serverUpdateCryptoKeyPrimaryVersion, if_neg hname, if_neg hvid,
        Storage.updateCryptoKeyPrimaryVersion, hck, hv]
      rw [if_neg (by simp [hs])]
    · simp only [serverUpdateCryptoKeyPrimaryVersion, if_neg hname, if_neg hvid,
        Storage.updateCryptoKeyPrimaryVersion, hck, hv]
      rw [if_neg (by simp [hs])]
      show Storage.findCryptoKey _ _ = _
      simp only [Storage.findCryptoKey]
      exact findCryptoKeyInRings_set hck _

theorem C5_update_primary_version_witness :
    exS2.findCryptoKey "r/cryptoKeys/k" = some exCK ∧
    lookupA exCK.versions ("r/cryptoKeys/k" ++ "/cryptoKeyVersions/" ++ "1") =
      some exVersion1 ∧
    ((serverUpdateCryptoKeyPrimaryVersion exS2 "r/cryptoKeys/k" "1").1 =
        .ok { name := exCK.name, createTime := exCK.createTime, purpose := exCK.purpose,
              primary := versionProtoOf exVersion1, versionTemplate := exCK.versionTemplate,
              labels := exCK.labels } ∧
      (serverUpdateCryptoKeyPrimaryVersion exS2 "r/cryptoKeys/k" "1").2.findCryptoKey
          "r/cryptoKeys/k" =
        some { exCK with primaryVersion := "r/cryptoKeys/k" ++ "/cryptoKeyVersions/" ++ "1" }) :=
  ⟨rfl, rfl,
    (C5_update_primary_version exS2 "r/cryptoKeys/k" "1" exCK (by decide) (by decide)
      rfl).2.2 exVersion1 rfl rfl⟩

/-- C6 (counterexample): the claim fails on version names containing the
substring "not found", which the unvalidated API accepts: the version below
exists in state DESTROY_SCHEDULED, yet a second `DestroyCryptoKeyVersion`
returns `NotFound`, not `FailedPrecondition` — the server's
`strings.Contains(msg, "not found")` branch fires first on the message
embedding the name. -/
theorem C6_counterexample :
    findVersionInRings exS2nfs.keyrings "not found/cryptoKeys/k/cryptoKeyVersions/1" =
      some { name := "not found/cryptoKeys/k/cryptoKeyVersions/1",
             state := .destroyScheduled, createTime := 1, algorithm := 1,
             symmetricKey := exKey1 } ∧
    (serverDestroyCryptoKeyVersion exS2nfs "not found/cryptoKeys/k/cryptoKeyVersions/1").1 =
      .error .notFound ∧
    Code.notFound ≠ Code.failedPrecondition :=
  ⟨rfl, rfl, by decide⟩

/-- C6 (amended): `DestroyCryptoKeyVersion` on an existing version not
already in state DESTROY_SCHEDULED or DESTROYED succeeds and sets the state
to DESTROY_SCHEDULED; on a version already in DESTROY_SCHEDULED or DESTROYED
it fails with an explicit error and leaves the state unchanged, and the
server reports that error as `FailedPrecondition` provided the storage error
message — which embeds the unvalidated version resource name — does not
itself contain the substring "not found" (the server classifies storage
errors by substring matching and checks "not found" first, so such names
yield `NotFound` instead).  In particular the first destroy of a freshly
created version succeeds and a second destroy of the same version fails. -/
theorem C6_destroy_guard (s : Storage) (name : String) (v : StoredCryptoKeyVersion)
    (hname : name ≠ "") (hv : findVersionInRings s.keyrings name = some v) :
    (v.state ≠ .destroyed → v.state ≠ .destroyScheduled →
      (serverDestroyCryptoKeyVersion s name).1 =
        .ok (versionProtoOf { v with state := .destroyScheduled }) ∧
      findVersionInRings (serverDestroyCryptoKeyVersion s name).2.keyrings name =
        some { v with state := .destroyScheduled }) ∧
    ((v.state = .destroyed ∨ v.state = .destroyScheduled) →
      strContains (errMessage (.versionAlreadyDestroyedOrScheduled name))
          "not found" = false →
      serverDestroyCryptoKeyVersion s name = (.error .failedPrecondition, s)) := by
  constructor
  · intro hd hs
    have hg : ¬ (v.state = .destroyed ∨ v.state = .destroyScheduled) := by
      intro hc
      rcases hc with hc | hc
      · exact hd hc
      · exact hs hc
    constructor
    · simp only [serverDestroyCryptoKeyVersion, if_neg hname,
        Storage.destroyCryptoKeyVersion, hv]
      rw [if_neg hg]
    · simp only [serverDestroyCryptoKeyVersion, if_neg hname,
        Storage.destroyCryptoKeyVersion, hv]
      rw [if_neg hg]
      exact findVersionInRings_set hv _
  · intro hg hmsg
    have hcode := destroyVersionErrCode_alreadyDestroyed hmsg
    simp only [serverDestroyCryptoKeyVersion, if_neg hname,
      Storage.destroyCryptoKeyVersion, hv]
    rw [if_pos hg]
    simp only [hcode]

theorem C6_destroy_guard_witness :
    findVersionInRings exS2.keyrings "r/cryptoKeys/k/cryptoKeyVersions/1" = some exVersion1 ∧
    ((serverDestroyCryptoKeyVersion exS2 "r/cryptoKeys/k/cryptoKeyVersions/1").1 =
        .ok (versionProtoOf { exVersion1 with state := .destroyScheduled }) ∧
      findVersionInRings
          (serverDestroyCryptoKeyVersion exS2 "r/cryptoKeys/k/cryptoKeyVersions/1").2.keyrings
          "r/cryptoKeys/k/cryptoKeyVersions/1" =
        some { exVersion1 with state := .destroyScheduled }) ∧
    findVersionInRings exS2s.keyrings "r/cryptoKeys/k/cryptoKeyVersions/1" =
      some { exVersion1 with state := .destroyScheduled } ∧
    serverDestroyCryptoKeyVersion exS2s "r/cryptoKeys/k/cryptoKeyVersions/1" =
      (.error .failedPrecondition, exS2s) :=
  ⟨rfl,
    (C6_destroy_guard exS2 "r/cryptoKeys/k/cryptoKeyVersions/1" exVersion1 (by decide) rfl).1
      (by decide) (by decide),
    rfl,
    (C6_destroy_guard exS2s "r/cryptoKeys/k/cryptoKeyVersions/1"
        { exVersion1 with state := .destroyScheduled } (by decide) rfl).2
      (Or.inr rfl) (by decide)⟩

/-- C7: every mutating storage operation — all seven that take the writer
lock and can return an error: `CreateKeyRing`, `CreateCryptoKey`,
`CreateCryptoKeyVersion`, `UpdateCryptoKeyPrimaryVersion`,
`UpdateCryptoKeyVersion`, `DestroyCryptoKeyVersion` and `UpdateCryptoKey` —
is atomic with respect to failure: whenever it returns an error, the
post-state equals the pre-state (every error return in the Go code happens
before any mutation of the shared maps; `UpdateCryptoKey`'s unchecked
primary read can only panic, never return an error). -/
theorem C7_atomic_on_error (op : MutOp) (s : Storage) (e : KmsErr)
    (h : (runMutOp op s).1 = .error e) : (runMutOp op s).2 = s := by
  cases op with
  | createKeyRing n now =>
    simp only [runMutOp] at h ⊢
    exact createKeyRing_error (except_map_error (outcomeOfExcept_error h))
  | createCryptoKey rn kid purpose tmpl labels key now =>
    simp only [runMutOp] at h ⊢
    exact createCryptoKey_error (except_map_error (outcomeOfExcept_error h))
  | createCryptoKeyVersion kn key now =>
    simp only [runMutOp] at h ⊢
    exact createCryptoKeyVersion_error (except_map_error (outcomeOfExcept_error h))
  | updateCryptoKeyPrimaryVersion kn vn =>
    simp only [runMutOp] at h ⊢
    exact updateCryptoKeyPrimaryVersion_error (except_map_error (outcomeOfExcept_error h))
  | updateCryptoKeyVersion vn st =>
    simp only [runMutOp] at h ⊢
    exact updateCryptoKeyVersion_error (except_map_error (outcomeOfExcept_error h))
  | destroyCryptoKeyVersion vn =>
    simp only [runMutOp] at h ⊢
    exact destroyCryptoKeyVersion_error (except_map_error (outcomeOfExcept_error h))
  | updateCryptoKey kn labels =>
    simp only [runMutOp] at h ⊢
    exact updateCryptoKey_error (opOutcome_map_error h)

theorem C7_atomic_on_error_witness :
    (runMutOp (.createKeyRing "r" 3) exS2).1 = .error (.keyringAlreadyExists "r") ∧
    (runMutOp (.createKeyRing "r" 3) exS2).2 = exS2 :=
  ⟨rfl, C7_atomic_on_error (.createKeyRing "r" 3) exS2 (.keyringAlreadyExists "r") rfl⟩

/-- C8: version ids come from a per-key monotonic counter starting at 1:
key creation stores the initial version under id 1 with the counter at 2;
on a well-versioned key, `CreateCryptoKeyVersion` uses the current counter as
the new id (strictly above every stored id), that name is not already in use
(never reused), and the counter advances by one with the invariant
preserved; and neither `UpdateCryptoKeyVersion` (disabling) nor
`DestroyCryptoKeyVersion` changes any key's counter or stored version
names. -/
theorem C8_monotonic_version_ids :
    (∀ (s : Storage) (ringName keyID : String) (purpose : Nat)
        (tmpl : Option CryptoKeyVersionTemplate) (labels : List (String × String))
        (symKey : List Nat) (now : Nat) (r : CryptoKeyProto) (s' : Storage),
      Storage.createCryptoKey s ringName keyID purpose tmpl labels symKey now = (.ok r, s') →
      ∃ kr' ck, lookupA s'.keyrings ringName = some kr' ∧
        lookupA kr'.cryptoKeys (ringName ++ "/cryptoKeys/" ++ keyID) = some ck ∧
        ck.nextVersionID = 2 ∧ WellVersioned (ringName ++ "/cryptoKeys/" ++ keyID) ck) ∧
    (∀ (s : Storage) (keyName : String) (symKey : List Nat) (now : Nat)
        (ck : StoredCryptoKey),
      s.findCryptoKey keyName = some ck → WellVersioned keyName ck →
      (s.createCryptoKeyVersion keyName symKey now).1 =
        .ok { name := versionNameFor keyName ck.nextVersionID, state := .enabled,
              createTime := now, algorithm := templateAlgorithm ck.versionTemplate } ∧
      lookupA ck.versions (versionNameFor keyName ck.nextVersionID) = none ∧
      ∃ ck', (s.createCryptoKeyVersion keyName symKey now).2.findCryptoKey keyName = some ck' ∧
        ck'.nextVersionID = ck.nextVersionID + 1 ∧ WellVersioned keyName ck') ∧
    (∀ (s : Storage) (vn : String) (st : VersionState),
      versionIdShape (s.updateCryptoKeyVersion vn st).2 = versionIdShape s) ∧
    (∀ (s : Storage) (vn : String),
      versionIdShape (s.destroyCryptoKeyVersion vn).2 = versionIdShape s) := by
  refine ⟨?_, ?_, ?_, ?_⟩
  · intro s rn kid purpose tmpl labels symKey now r s' h
    cases h1 : lookupA s.keyrings rn with
    | none => simp [Storage.createCryptoKey, h1] at h
    | some kr =>
      cases h2 : lookupA kr.cryptoKeys (rn ++ "/cryptoKeys/" ++ kid) with
      | some ck0 => simp [Storage.createCryptoKey, h1, h2] at h
      | none =>
        simp only [Storage.createCryptoKey, h1, h2, Prod.mk.injEq] at h
        obtain ⟨hr, hs'⟩ := h
        subst hs'
        refine ⟨_, _, lookupA_insertA_self _ _ _, lookupA_insertA_self _ _ _, rfl, ?_⟩
        constructor
        · exact Nat.le_refl 2
        · intro p hp
          have hp' : p = (rn ++ "/cryptoKeys/" ++ kid ++ "/cryptoKeyVersions/1",
              { name := rn ++ "/cryptoKeys/" ++ kid ++ "/cryptoKeyVersions/1",
                state := .enabled, createTime := now,
                algorithm := templateAlgorithm tmpl, symmetricKey := symKey }) := by
            simpa using hp
          refine ⟨1, Nat.le_refl 1, Nat.one_lt_two, ?_⟩
          rw [hp']
          exact versionNameFor_one _
  · intro s keyName symKey now ck hck hwv
    refine ⟨?_, wellVersioned_fresh hwv, ?_⟩
    · simp only [Storage.createCryptoKeyVersion, hck, versionProtoOf]
    · refine ⟨{ ck with
          versions := insertA ck.versions (versionNameFor keyName ck.nextVersionID)
            { name := versionNameFor keyName ck.nextVersionID, state := .enabled,
              createTime := now, algorithm := templateAlgorithm ck.versionTemplate,
              symmetricKey := symKey },
          nextVersionID := ck.nextVersionID + 1 },
        ?_, rfl, wellVersioned_step hwv _⟩
      simp only [Storage.createCryptoKeyVersion, hck]
      exact findCryptoKeyInRings_set hck _
  · intro s vn st
    cases h1 : findVersionInRings s.keyrings vn with
    | none => simp [Storage.updateCryptoKeyVersion, h1]
    | some v =>
      simp only [Storage.updateCryptoKeyVersion, h1]
      exact versionIdShape_setVersionInRings s vn _
  · intro s vn
    cases h1 : findVersionInRings s.keyrings vn with
    | none => simp [Storage.destroyCryptoKeyVersion, h1]
    | some v =>
      by_cases hg : v.state = .destroyed ∨ v.state = .destroyScheduled
      · simp [Storage.destroyCryptoKeyVersion, h1, hg]
      · simp only [Storage.destroyCryptoKeyVersion, h1]
        rw [if_neg hg]
        exact versionIdShape_setVersionInRings s vn _

theorem C8_monotonic_version_ids_witness :
    exS2.findCryptoKey "r/cryptoKeys/k" = some exCK ∧
    WellVersioned "r/cryptoKeys/k" exCK ∧
    ((Storage.createCryptoKeyVersion exS2 "r/cryptoKeys/k" (List.replicate 32 1) 5).1 =
        .ok { name := versionNameFor "r/cryptoKeys/k" exCK.nextVersionID, state := .enabled,
              createTime := 5, algorithm := templateAlgorithm exCK.versionTemplate } ∧
      lookupA exCK.versions (versionNameFor "r/cryptoKeys/k" exCK.nextVersionID) = none ∧
      ∃ ck', (Storage.createCryptoKeyVersion exS2 "r/cryptoKeys/k"
          (List.replicate 32 1) 5).2.findCryptoKey "r/cryptoKeys/k" = some ck' ∧
        ck'.nextVersionID = exCK.nextVersionID + 1 ∧ WellVersioned "r/cryptoKeys/k" ck') := by
  have hwv : WellVersioned "r/cryptoKeys/k" exCK := by
    constructor
    · decide
    · intro p hp
      simp only [exCK, List.mem_singleton] at hp
      refine ⟨1, Nat.le_refl 1, by decide, ?_⟩
      rw [hp]
      decide
  exact ⟨rfl, hwv,
    C8_monotonic_version_ids.2.1 exS2 "r/cryptoKeys/k" (List.replicate 32 1) 5 exCK rfl hwv⟩

end KmsModel
